import Mathlib

/-!
Verification of the suffix-array text-indexing engine from
`src/data-structures/include/suffix_array.hpp` and its RMQ dependency
`src/data-structures/include/sparse_table.hpp`.

Modelling conventions:
* a text is a `List Nat` of byte values (the C++ `std::string` read through
  `static_cast<unsigned char>`), an integer text is a `List Int`;
* `std::vector` reads are `List.getD` (every in-bounds access of the source is
  in bounds in the situations the theorems talk about; functions whose claims
  concern out-of-bounds behaviour are modelled in `Except`, with an
  out-of-bounds access — undefined behaviour in C++ — surfaced as `.error`);
* `std::sort` is modelled as a stable sort (`List.insertionSort`).  For the
  sub-16-element ranges appearing in every concrete input below, libstdc++'s
  `std::sort` runs plain insertion sort, which is stable, so the model agrees
  with the code's observable behaviour there; the spec (§4.1) likewise fixes
  stable sorting as the canonical tie-break;
* `size_t` arithmetic that can wrap is taken mod `2 ^ 64` where the wrap is
  reachable (`IntSuffixArray` rank initialisation, `kthSubstring` counting);
* `std::lower_bound` / `std::upper_bound` are embedded as the libstdc++
  half-interval algorithm, which is what the source calls.
-/

namespace Algo

/-- Word size of `size_t` on the target platform. -/
def W : Nat := 2 ^ 64

/-- The suffix of `t` starting at offset `i` (no wraparound). -/
def sfx (t : List Nat) (i : Nat) : List Nat := t.drop i

/-- Brute-force length of the longest common prefix of two sequences. -/
def commonPrefixLen : List Nat → List Nat → Nat
  | a :: as, b :: bs => if a = b then commonPrefixLen as bs + 1 else 0
  | _, _ => 0

/-! ### Rank-doubling suffix array builder (`SuffixArray::buildSA`,
`IntSuffixArray::buildSA`; the two bodies are identical once the initial rank
values are fixed, so they share one model parameterised by `rank0`). -/

/-- The comparator of one doubling round (`cmp` in `buildSA`): compare by
`rank[i]`, then by `rank[i+k]` with `0` substituted when `i+k` runs off the
end. -/
def cmpK (rank : List Nat) (n k : Nat) (i j : Nat) : Bool :=
  if rank.getD i 0 ≠ rank.getD j 0 then
    decide (rank.getD i 0 < rank.getD j 0)
  else
    decide ((if i + k < n then rank.getD (i + k) 0 else 0)
      < (if j + k < n then rank.getD (j + k) 0 else 0))

/-- Group numbering along the sorted order: `temp[sa[0]] = 0` and
`temp[sa[i]] = temp[sa[i-1]] + (cmp sa[i-1] sa[i] ? 1 : 0)`.  We build the
list of `(index, group)` pairs along `sa`. -/
def groupsAux (cmp : Nat → Nat → Bool) : Nat → Nat → List Nat → List (Nat × Nat)
  | _, _, [] => []
  | prev, g, x :: xs =>
    let g1 := if cmp prev x then g + 1 else g
    (x, g1) :: groupsAux cmp x g1 xs

/-- Pair every element of the sorted suffix order with its group number. -/
def groups (cmp : Nat → Nat → Bool) : List Nat → List (Nat × Nat)
  | [] => []
  | x :: xs => (x, 0) :: groupsAux cmp x 0 xs

/-- One round of the doubling loop: sort `sa` with the round comparator
(`std::sort`, modelled stable: `i ≤ j` iff `¬ cmp j i`) and renumber the
ranks. -/
def saRound (n k : Nat) (sa rank : List Nat) : List Nat × List Nat :=
  let cmp := cmpK rank n k
  let sa1 := List.insertionSort (fun i j => cmp j i = false) sa
  let pairs := groups cmp sa1
  let rank1 := (List.range n).map (fun p => ((pairs.lookup p).getD 0))
  (sa1, rank1)

/-- The doubling loop `for (k = 1; k < n; k <<= 1)` with the early break when
all ranks are distinct.  `fuel` bounds the number of rounds; `buildSA` passes
`n`, which is ample since `k` doubles every round. -/
def saLoop (n : Nat) : Nat → Nat → List Nat × List Nat → List Nat × List Nat
  | 0, _, st => st
  | fuel + 1, k, (sa, rank) =>
    if k < n then
      let st1 := saRound n k sa rank
      if st1.2.getD (st1.1.getD (n - 1) 0) 0 = n - 1 then st1
      else saLoop n fuel (2 * k) st1
    else (sa, rank)

/-- `buildSA`, returning `(sa, rank)`; `rank0` is the list of initial rank
values (`static_cast<unsigned char>(text[i])` for the string engine, the
`size_t` image of `text[i]` for the integer engine). -/
def buildSA (rank0 : List Nat) : List Nat × List Nat :=
  let n := rank0.length
  saLoop n n 1 (List.range n, rank0)

/-! ### Kasai LCP builder (`buildLCP`, shared by both engines). -/

/-- The character-matching `while` loop of Kasai's algorithm, fuelled so that
it is structurally recursive (the fuel `t.length - r` dominates the number of
iterations, since the loop stops once `r` reaches `t.length`). -/
def matchFromGo [DecidableEq α] [Inhabited α] (t : List α) :
    Nat → Nat → Nat → Nat
  | 0, _, _ => 0
  | fuel + 1, r, l =>
    if r < t.length ∧ l < t.length ∧ t.getD r default = t.getD l default then
      matchFromGo t fuel (r + 1) (l + 1) + 1
    else 0

/-- Number of consecutive equal characters of `t` starting at offsets `r`
and `l`. -/
def matchFrom [DecidableEq α] [Inhabited α] (t : List α) (r l : Nat) : Nat :=
  matchFromGo t (t.length - r) r l

/-- One iteration of Kasai's outer loop for start position `suff`; the state is
`(lcp, len)`.  The out-of-bounds accesses reachable for one-character texts
(where `rank` keeps its raw initial value) are collapsed here by `List.getD`'s
default and `List.set`'s out-of-range no-op; `kasaiStepE` below is the
error-reporting variant that keeps those undefined accesses visible. -/
def kasaiStep [DecidableEq α] [Inhabited α] (t : List α) (sa rank : List Nat)
    (st : List Nat × Nat) (suff : Nat) : List Nat × Nat :=
  let a := rank.getD suff 0
  if a = 0 then st
  else
    let prevSuff := sa.getD (a - 1) 0
    let len1 := st.2 + matchFrom t (suff + st.2) (prevSuff + st.2)
    (st.1.set a len1, if len1 > 0 then len1 - 1 else len1)

/-- `buildLCP` (Kasai's algorithm). -/
def buildLCP [DecidableEq α] [Inhabited α] (t : List α) (sa rank : List Nat) :
    List Nat :=
  let n := t.length
  ((List.range n).foldl (kasaiStep t sa rank) (List.replicate n 0, 0)).1

/-- The three arrays a `SuffixArray` object holds after construction. -/
structure SAData where
  sa : List Nat
  lcp : List Nat
  rank : List Nat
deriving DecidableEq, Repr

/-- The `SuffixArray(text)` constructor: build `sa` and `rank`, then `lcp`
(everything is empty for the empty text, exactly as the early return leaves
the zero-length vectors). -/
def buildText (t : List Nat) : SAData :=
  let p := buildSA t
  ⟨p.1, buildLCP t p.1 p.2, p.2⟩

/-! ### Query layer. -/

/-- Three-way lexicographic comparison of byte sequences, the semantics of
`std::string::compare` on the clamped substring. -/
def cmp3 : List Nat → List Nat → Ordering
  | [], [] => .eq
  | [], _ :: _ => .lt
  | _ :: _, [] => .gt
  | a :: as, b :: bs =>
    if a < b then .lt else if b < a then .gt else cmp3 as bs

/-- The comparison `text.compare(idx, m, p)` used by `search` / `count`. -/
def textComp (t : List Nat) (idx m : Nat) (p : List Nat) : Ordering :=
  cmp3 ((t.drop idx).take m) p

/-- The libstdc++ `std::lower_bound` half-interval search over `sa`, fuelled
(the remaining length strictly decreases every step, so fuel `len` is ample);
`pred idx` models `comp(*it, value)`. -/
def lbGo (pred : Nat → Bool) (sa : List Nat) : Nat → Nat → Nat → Nat
  | 0, first, _ => first
  | fuel + 1, first, len =>
    if len = 0 then first
    else
      let half := len / 2
      if pred (sa.getD (first + half) 0) then
        lbGo pred sa fuel (first + half + 1) (len - half - 1)
      else
        lbGo pred sa fuel first half

/-- The `std::lower_bound` call over the whole of `sa`, returning an index. -/
def lbAux (pred : Nat → Bool) (sa : List Nat) (first len : Nat) : Nat :=
  lbGo pred sa len first len

/-- The libstdc++ `std::upper_bound` half-interval search, fuelled; `pred idx`
models `comp(value, *it)`. -/
def ubGo (pred : Nat → Bool) (sa : List Nat) : Nat → Nat → Nat → Nat
  | 0, first, _ => first
  | fuel + 1, first, len =>
    if len = 0 then first
    else
      let half := len / 2
      if pred (sa.getD (first + half) 0) then
        ubGo pred sa fuel first half
      else
        ubGo pred sa fuel (first + half + 1) (len - half - 1)

/-- The `std::upper_bound` call over the whole of `sa`, returning an index. -/
def ubAux (pred : Nat → Bool) (sa : List Nat) (first len : Nat) : Nat :=
  ubGo pred sa len first len

/-- `SuffixArray::search(pattern)`. -/
def search (t sa : List Nat) (p : List Nat) : List Nat :=
  let n := t.length
  let m := p.length
  if m = 0 ∨ m > n then []
  else
    let lower := lbAux (fun idx => textComp t idx m p = .lt) sa 0 sa.length
    if lower = sa.length then []
    else
      let upper := ubAux (fun idx => textComp t idx m p = .gt) sa 0 sa.length
      List.insertionSort (fun a b => a ≤ b) ((sa.drop lower).take (upper - lower))

/-- `SuffixArray::count(pattern)` (the `std::distance(lower, upper)` is
non-negative in every situation considered here, so plain `Nat` subtraction
is the faithful value). -/
def countOcc (t sa : List Nat) (p : List Nat) : Nat :=
  let n := t.length
  let m := p.length
  if m = 0 ∨ m > n then 0
  else
    let lower := lbAux (fun idx => textComp t idx m p = .lt) sa 0 sa.length
    if lower = sa.length then 0
    else
      let upper := ubAux (fun idx => textComp t idx m p = .gt) sa 0 sa.length
      upper - lower

/-- `SuffixArray::contains(pattern)`. -/
def containsPat (t sa : List Nat) (p : List Nat) : Bool :=
  decide (countOcc t sa p > 0)

/-- `SuffixArray::distinct()`. -/
def distinct (t : List Nat) (lcp : List Nat) : Nat :=
  t.length * (t.length + 1) / 2 - lcp.sum

/-- The `{length, startPos}` result record (`SubString` in the source). -/
structure SubString where
  length : Nat
  startPos : Nat
deriving DecidableEq, Repr

/-- `SuffixArray::LRS()`. -/
def LRS (t sa lcp : List Nat) : SubString :=
  if t.length = 0 then ⟨0, 0⟩
  else
    (List.range t.length).foldl
      (fun acc i =>
        if lcp.getD i 0 > acc.1.length then (⟨lcp.getD i 0, sa.getD i 0⟩, acc.2)
        else acc)
      (⟨(0 : Nat), (0 : Nat)⟩, ())
    |>.1

/-- The scan of `SuffixArray::kthSubstring`; the loop index pairs `sa[i]` with
`lcp[i]`.  `len - lcp[i]` and the comparisons are `size_t` arithmetic, hence
the mod `W`. -/
def kthGo (t : List Nat) (n len k : Nat) : List (Nat × Nat) → Nat → List Nat
  | [], _ => []
  | (saI, lcpI) :: rest, cnt =>
    if saI + len > n then kthGo t n len k rest cnt
    else
      let newSub := (len + W - lcpI) % W
      if (cnt + newSub) % W > k then
        (t.drop saI).take ((lcpI + ((k + W - cnt) % W)) % W)
      else kthGo t n len k rest ((cnt + newSub) % W)

/-- `SuffixArray::kthSubstring(len, k)`. -/
def kthSubstring (t sa lcp : List Nat) (len k : Nat) : List Nat :=
  if len > t.length then []
  else kthGo t t.length len k (sa.zip lcp) 0

/-- `SuffixArray::maximalRepeats()`. -/
def maximalRepeats (t sa lcp : List Nat) : List SubString :=
  (List.range t.length).foldl
    (fun acc i =>
      if i = 0 then acc
      else if lcp.getD i 0 = 0 then acc
      else
        let isMax :=
          ¬ (i > 1 ∧ lcp.getD (i - 1) 0 ≥ lcp.getD i 0) ∧
          ¬ (i < sa.length - 1 ∧ lcp.getD (i + 1) 0 ≥ lcp.getD i 0)
        if isMax then acc ++ [⟨lcp.getD i 0, sa.getD i 0⟩] else acc)
    []

/-! ### Sparse-table RMQ (`sparse_table.hpp`).  `query` throws
`std::invalid_argument` when `L > R`; that throw, and any out-of-bounds vector
access (undefined behaviour in C++), surface as `.error`. -/

/-- Checked vector read. -/
def getE (l : List Nat) (i : Nat) : Except String Nat :=
  if h : i < l.length then .ok (l.get ⟨i, h⟩) else .error "vector index out of range"

/-- The table entry `st[i][j]`: the build loops fill `st[i][0] = arr[i]` for
`i < n` and `st[i][j] = min(st[i][j-1], st[i + 2^(j-1)][j-1])` whenever
`i + 2^j <= n`; entries never written keep the zero-initialised value. -/
def stVal (arr : List Nat) (n : Nat) : Nat → Nat → Nat
  | i, 0 => arr.getD i 0
  | i, j + 1 =>
    if i + 2 ^ (j + 1) ≤ n then
      min (stVal arr n i j) (stVal arr n (i + 2 ^ j) j)
    else 0

/-- The `SparseTable` object: `n`, the table, and the log table. -/
structure SpTable where
  n : Nat
  st : List (List Nat)
  lg : List Nat
deriving Repr

/-- Structural computation of the floor base-2 logarithm (`std::__lg`, and
the table `lg[i] = lg[i/2] + 1` of the constructor); fuelled version of
`Nat.log2`. -/
def lg2Go : Nat → Nat → Nat
  | 0, _ => 0
  | fuel + 1, n => if n ≥ 2 then lg2Go fuel (n / 2) + 1 else 0

/-- Floor base-2 logarithm. -/
def lg2 (n : Nat) : Nat := lg2Go n n

/-- The `SparseTable(arr)` constructor (`maxLog = __lg(n) + 1`,
`lg[i] = lg[i/2] + 1`, i.e. `lg[i]` is the floor base-2 logarithm). -/
def buildST (arr : List Nat) : SpTable :=
  let n := arr.length
  if n = 0 then ⟨0, [], [0]⟩
  else
    let maxLog := lg2 n + 1
    ⟨n,
     (List.range n).map (fun i => (List.range maxLog).map (fun j => stVal arr n i j)),
     (List.range (n + 1)).map lg2⟩

/-- `SparseTable::query(L, R)`: the guard throw, then the reads
`lg[R - L + 1]`, `st[L][k]` and `st[R - (1 << k) + 1][k]` in order, each
length-checked (an out-of-bounds vector read is undefined behaviour and
surfaces as an error). -/
def stQueryE (tb : SpTable) (L R : Nat) : Except String Nat :=
  if L > R then .error "invalid_argument: L cannot be greater than R"
  else
    let len := R - L + 1
    if len < tb.lg.length then
      let k := tb.lg.getD len 0
      if L < tb.st.length then
        let rowL := tb.st.getD L []
        if k < rowL.length then
          let i2 := R + 1 - 2 ^ k
          if i2 < tb.st.length then
            let row2 := tb.st.getD i2 []
            if k < row2.length then
              .ok (min (rowL.getD k 0) (row2.getD k 0))
            else .error "vector index out of range"
          else .error "vector index out of range"
        else .error "vector index out of range"
      else .error "vector index out of range"
    else .error "vector index out of range"

/-- `SuffixArray::lcpRange(l, r)`: swap an inverted range, answer `n - sa[l]`
on the diagonal, otherwise build a fresh sparse table over `lcp` and query. -/
def lcpRangeE (n : Nat) (sa lcp : List Nat) (l r : Nat) : Except String Nat :=
  let lr := if l > r then (r, l) else (l, r)
  if lr.1 = lr.2 then do
    let s ← getE sa lr.1
    pure (n - s)
  else stQueryE (buildST lcp) lr.1 lr.2

/-- `SuffixArray::lcpBetween(i, j)`. -/
def lcpBetweenE (n : Nat) (sa lcp rank : List Nat) (i j : Nat) :
    Except String Nat := do
  let ri ← getE rank i
  let rj ← getE rank j
  lcpRangeE n sa lcp ri rj

/-! ### Burrows-Wheeler transform and inverse. -/

/-- `IntSuffixArray(in)`: same pipeline, initial ranks are the `size_t`
images of the signed 64-bit values. -/
def buildInt (t : List Int) : SAData :=
  let rank0 := t.map (fun v => (v % ((2 : Int) ^ 64)).toNat)
  let p := buildSA rank0
  ⟨p.1, buildLCP t p.1 p.2, p.2⟩

/-- The value of a text byte as the C++ (signed) `char` read from a
`std::string` and widened to `long long`. -/
def charToLL (b : Nat) : Int := if b < 128 then (b : Int) else (b : Int) - 256

/-- `buildCombined(strings)`: concatenate, putting the sentinel
`-LLONG_MAX + i` before string `i` for `i > 0`, and record each position's
source string (`-1` for sentinels). -/
def buildCombined (strings : List (List Nat)) : List Int × List Int :=
  let n := strings.length
  (strings.enum.foldl
    (fun acc si =>
      let head : List Int × List Int :=
        if si.1 > 0 then (acc.1 ++ [-((2 : Int) ^ 63 - 1) + si.1], acc.2 ++ [-1])
        else acc
      (head.1 ++ si.2.map (fun c => charToLL c + n),
       head.2 ++ si.2.map (fun _ => (si.1 : Int))))
    ([], []))

/-- The window-shrinking `while` of `getLCS`, fuelled (`j` grows by one per
iteration and stays below `i`, so fuel `i` suffices): advance `j` over
sentinels and over sources still represented more than once.  Returns the new
`j` and the updated per-source counter. -/
def lcsShrinkGo (ranges : List Int) (sa : List Nat) (i : Nat) :
    Nat → Nat → (Int → Nat) → Nat × (Int → Nat)
  | 0, j, cnt => (j, cnt)
  | fuel + 1, j, cnt =>
    if j < i then
      let jRange := ranges.getD (sa.getD j 0) 0
      if jRange = -1 then lcsShrinkGo ranges sa i fuel (j + 1) cnt
      else if cnt jRange > 1 then
        lcsShrinkGo ranges sa i fuel (j + 1)
          (fun x => if x = jRange then cnt jRange - 1 else cnt x)
      else (j, cnt)
    else (j, cnt)

/-- The shrink loop entry point. -/
def lcsShrink (ranges : List Int) (sa : List Nat) (i j : Nat)
    (cnt : Int → Nat) : Nat × (Int → Nat) :=
  lcsShrinkGo ranges sa i (i - j) j cnt

/-- The state of the `getLCS` scan: window start `j`, the set of sources seen,
the per-source counts, and the best length so far. -/
structure LcsState where
  j : Nat
  inSpan : Finset Int
  counts : Int → Nat
  result : Nat

/-- One iteration (suffix-order position `i`) of the `getLCS` scan. -/
def lcsStep (ranges : List Int) (sa : List Nat) (tb : SpTable)
    (nStr : Nat) (st : LcsState) (i : Nat) : LcsState :=
  let range := ranges.getD (sa.getD i 0) 0
  if range = -1 then st
  else
    let inSpan := insert range st.inSpan
    let counts0 := fun x => if x = range then st.counts range + 1 else st.counts x
    let jc := lcsShrink ranges sa i st.j counts0
    let result :=
      if inSpan.card = nStr ∧ jc.1 < i then
        max st.result ((stQueryE tb (jc.1 + 1) i).toOption.getD 0)
      else st.result
    ⟨jc.1, inSpan, jc.2, result⟩

/-- `getLCS(strings)`. -/
def getLCS (strings : List (List Nat)) : Nat :=
  let n := strings.length
  if n = 0 then 0
  else if n = 1 then (strings.headD []).length
  else
    let cr := buildCombined strings
    let len := cr.1.length
    let d := buildInt cr.1
    let tb := buildST d.lcp
    ((List.range len).foldl (lcsStep cr.2 d.sa tb n)
      ⟨0, ∅, fun _ => 0, 0⟩).result

/-- Byte sequence of the spec fixture text `"banana"`. -/
def bananaT : List Nat := [98, 97, 110, 97, 110, 97]

/-- Byte sequence of the text `"aaa"`. -/
def aaaT : List Nat := [97, 97, 97]

/-- The start positions a naive scan finds for pattern `p` in text `t`. -/
def naiveOcc (t p : List Nat) : List Nat :=
  (List.range (t.length + 1 - p.length)).filter
    (fun i => decide ((t.drop i).take p.length = p))

/-! ### Specification-side notions used to settle C3: truncated suffixes,
the sentinel precondition, and the quantities the BWT inverse manipulates. -/

/-- The first `m` characters of the suffix starting at `i`. -/
def trunc (t : List Nat) (m i : Nat) : List Nat := (t.drop i).take m

/-- C1: the constructed suffix array is not always sorted by suffix content.
On the text `"aaa"` construction returns `SA = [2, 0, 1]`: the suffix at
`SA[1] = 0` (namely `"aaa"`) is lexicographically greater than the suffix at
`SA[2] = 1` (namely `"aa"`), so `SA` does not list suffixes in increasing
order (the `0` the round comparator substitutes for an out-of-range
`rank[i+k]` collides with the rank of the smallest group, merging a suffix
with its proper prefix). -/
theorem C1_buildSA_missorts_aaa :
    (buildText aaaT).sa = [2, 0, 1] ∧
    List.Lex (· < ·) (sfx aaaT ((buildText aaaT).sa.getD 2 0))
      (sfx aaaT ((buildText aaaT).sa.getD 1 0)) := by
  decide

/-- C2: the constructed LCP array is not always the common-prefix length of
SA-adjacent suffixes.  On `"aaa"` construction yields `lcp = [0, 1, 0]`,
but the suffixes at `SA[1] = 0` and `SA[2] = 1` share a common prefix of
length `2`, not `0`. -/
theorem C2_buildLCP_wrong_aaa :
    (buildText aaaT).lcp = [0, 1, 0] ∧
    commonPrefixLen (sfx aaaT ((buildText aaaT).sa.getD 1 0))
      (sfx aaaT ((buildText aaaT).sa.getD 2 0)) = 2 := by
  decide

/-- C4: `getLCS` does not always return the longest common substring length.
On `["a", "aaa"]` it returns `0`, though `"a"` is a substring of both
inputs, so the longest common substring has length `1`. -/
theorem C4_getLCS_wrong :
    getLCS [[97], [97, 97, 97]] = 0 ∧
    [97] <:+: [97] ∧ [97] <:+: [97, 97, 97] := by
  refine ⟨by decide, ?_, ?_⟩
  · exact ⟨[], [], rfl⟩
  · exact ⟨[], [97, 97], rfl⟩

/-- C5: `search` does not always return exactly the positions a naive scan
finds.  On text `"aaa"` with pattern `"aaa"` it returns `[0, 1]` although the
only true occurrence is at position `0` (the missorted suffix array breaks
the binary-search partition). -/
theorem C5_search_wrong_aaa :
    search aaaT (buildText aaaT).sa aaaT = [0, 1] ∧
    naiveOcc aaaT aaaT = [0] ∧
    countOcc aaaT (buildText aaaT).sa aaaT = 2 := by
  decide

/-- C6: the rank array is not always the inverse permutation of `SA`.  On
`"aaa"` construction yields `rank = [1, 1, 0]` (not even a permutation), and
`rank[SA[2]] = rank[1] = 1 ≠ 2`. -/
theorem C6_rank_not_inverse_aaa :
    (buildText aaaT).rank = [1, 1, 0] ∧
    (buildText aaaT).rank.getD ((buildText aaaT).sa.getD 2 0) 0 ≠ 2 := by
  decide

/-- C9: on `"banana"`, `kthSubstring(len = 1, k = 0)` returns the empty
string, not `"a"`: the hit branch slices `text.substr(sa[i], lcp[i] + offset)`
whose length is `lcp[0] + 0 = 0` (the slice length misses a `+ 1`, so the
function never returns a string of the requested length). -/
theorem C9_kthSubstring_banana_empty :
    kthSubstring bananaT (buildText bananaT).sa (buildText bananaT).lcp 1 0 = [] ∧
    ([] : List Nat) ≠ [97] := by
  decide

/-- C10: `lcpBetween` does not return the common-prefix length of the two
suffixes.  On `"banana"` with start positions `3` and `1` it returns `1`,
but the suffixes `"ana"` and `"anana"` share a prefix of length `3`
(`lcpRange` takes the minimum from `lcp[rank[i]]` instead of
`lcp[rank[i] + 1]`, folding in the unrelated predecessor boundary). -/
theorem C10_lcpBetween_offByOne_banana :
    lcpBetweenE 6 (buildText bananaT).sa (buildText bananaT).lcp
      (buildText bananaT).rank 3 1 = .ok 1 ∧
    commonPrefixLen (sfx bananaT 3) (sfx bananaT 1) = 3 :=
  ⟨rfl, by decide⟩

/-- C7, counterexample: `SparseTable::query` does not swap an inverted range;
it throws `std::invalid_argument`. -/
theorem C7_query_throws :
    stQueryE (buildST [1, 2, 3]) 2 0 =
      .error "invalid_argument: L cannot be greater than R" :=
  rfl

/-- C8, counterexample: on the empty text `lcpRange(0, 0)` reads `sa[0]` of
the empty suffix array — undefined behaviour, not a defined empty/zero
result. -/
theorem C8_lcpRange_empty_fails :
    (buildText []).sa = [] ∧ (buildText []).lcp = [] ∧
    lcpRangeE 0 (buildText []).sa (buildText []).lcp 0 0 =
      .error "vector index out of range" :=
  ⟨rfl, rfl, rfl⟩

set_option maxRecDepth 40000 in
/-- The spec fixture `getLCS(["banana","ananas"]) == 5` holds on the code. -/
theorem getLCS_fixture_banana_ananas :
    getLCS [[98, 97, 110, 97, 110, 97], [97, 110, 97, 110, 97, 115]] = 5 := by
  decide

/-- The spec fixture `getLCS(["abc","xyz"]) == 0` holds on the code. -/
theorem getLCS_fixture_abc_xyz :
    getLCS [[97, 98, 99], [120, 121, 122]] = 0 := by
  decide

set_option maxRecDepth 40000 in
/-- The spec fixture `getLCS(["same","same","same"]) == 4` holds on the
code. -/
theorem getLCS_fixture_same :
    getLCS [[115, 97, 109, 101], [115, 97, 109, 101], [115, 97, 109, 101]] = 4 := by
  decide

/-- The spec fixture for `"banana"`: `SA = [5,3,1,0,4,2]`,
`LCP = [0,1,3,0,0,2]` (and the rank array the build leaves). -/
theorem banana_fixture :
    buildText bananaT = ⟨[5, 3, 1, 0, 4, 2], [0, 1, 3, 0, 0, 2], [3, 2, 5, 1, 4, 0]⟩ := by
  decide

/-- C8, amended: on the empty text construction yields empty arrays and
`distinct`, `LRS`, `search`, `count`, `contains`, `kthSubstring` and
`maximalRepeats` all return defined empty or zero results; an empty pattern,
or a pattern longer than the text, yields an empty/zero result on any text.
(`lcpRange` and `lcpBetween` are excluded: on the empty text they perform
out-of-bounds accesses, see the counterexample.) -/
theorem C8_empty_degrades :
    buildText [] = ⟨[], [], []⟩ ∧
    distinct [] [] = 0 ∧
    LRS [] [] [] = ⟨0, 0⟩ ∧
    maximalRepeats [] [] [] = [] ∧
    (∀ p, search [] [] p = []) ∧
    (∀ p, countOcc [] [] p = 0) ∧
    (∀ p, containsPat [] [] p = false) ∧
    (∀ len k, kthSubstring [] [] [] len k = []) ∧
    (∀ t sa : List Nat, search t sa [] = [] ∧ countOcc t sa [] = 0) ∧
    (∀ t sa p : List Nat, t.length < p.length →
      search t sa p = [] ∧ countOcc t sa p = 0) := by
  refine ⟨rfl, rfl, rfl, rfl, ?_, ?_, ?_, ?_, ?_, ?_⟩
  · intro p
    simp only [search, List.length_nil]
    rw [if_pos (by omega)]
  · intro p
    simp only [countOcc, List.length_nil]
    rw [if_pos (by omega)]
  · intro p
    simp only [containsPat, countOcc, List.length_nil]
    rw [if_pos (by omega)]
    rfl
  · intro len k
    cases len with
    | zero => rfl
    | succ m =>
      simp only [kthSubstring, List.length_nil]
      rw [if_pos (by omega)]
  · intro t sa
    constructor
    · simp [search]
    · simp [countOcc]
  · intro t sa p h
    constructor
    · simp only [search]
      rw [if_pos (Or.inr h)]
    · simp only [countOcc]
      rw [if_pos (Or.inr h)]

/-- C8 amended-claim witness: the degraded results at concrete inputs. -/
theorem C8_empty_degrades_witness :
    search [97] [0] [98, 99] = [] ∧ countOcc [97] [0] [98, 99] = 0 :=
  C8_empty_degrades.2.2.2.2.2.2.2.2.2 [97] [0] [98, 99] (by decide)

/-! ### Correctness of the sparse-table RMQ, used to settle C7. -/

/-- The fuelled base-2 logarithm agrees with `Nat.log2` whenever the fuel
covers the argument. -/
theorem lg2Go_eq_log2 : ∀ fuel n : Nat, n ≤ fuel → lg2Go fuel n = Nat.log2 n := by
  intro fuel
  induction fuel with
  | zero =>
    intro n hn
    have : n = 0 := Nat.le_zero.mp hn
    subst this
    simp [lg2Go, Nat.log2]
  | succ f ih =>
    intro n hn
    rw [Nat.log2]
    by_cases h2 : n ≥ 2
    · have hdiv : n / 2 ≤ f := by omega
      simp only [lg2Go, if_pos h2, ih (n / 2) hdiv]
    · simp [lg2Go, h2]

/-- `lg2` is `Nat.log2`. -/
theorem lg2_eq_log2 (n : Nat) : lg2 n = Nat.log2 n :=
  lg2Go_eq_log2 n n le_rfl

/-- Every cell actually filled by the build loops bounds its window from
below: `st[i][j] ≤ arr[x]` for `x` in `[i, i + 2^j)`. -/
theorem stVal_le (arr : List Nat) (n : Nat) :
    ∀ j i x : Nat, i + 2 ^ j ≤ n → i ≤ x → x < i + 2 ^ j →
      stVal arr n i j ≤ arr.getD x 0 := by
  intro j
  induction j with
  | zero =>
    intro i x _ h1 h2
    have : x = i := by simpa using Nat.le_antisymm (by omega) h1
    subst this
    simp [stVal]
  | succ j ih =>
    intro i x hn h1 h2
    have hsplit : 2 ^ (j + 1) = 2 ^ j + 2 ^ j := by rw [Nat.pow_succ]; omega
    have hpow : 0 < 2 ^ j := by positivity
    have hn2 := hn
    have h2b := h2
    rw [hsplit] at hn2 h2b
    rw [stVal, if_pos hn]
    rcases Nat.lt_or_ge x (i + 2 ^ j) with hx | hx
    · exact le_trans (min_le_left _ _) (ih i x (by omega) h1 hx)
    · exact le_trans (min_le_right _ _) (ih (i + 2 ^ j) x (by omega) hx (by omega))

/-- Every cell actually filled by the build loops is attained inside its
window. -/
theorem stVal_mem (arr : List Nat) (n : Nat) :
    ∀ j i : Nat, i + 2 ^ j ≤ n →
      ∃ x, i ≤ x ∧ x < i + 2 ^ j ∧ stVal arr n i j = arr.getD x 0 := by
  intro j
  induction j with
  | zero =>
    intro i _
    exact ⟨i, le_rfl, by simp, by simp [stVal]⟩
  | succ j ih =>
    intro i hn
    have hsplit : 2 ^ (j + 1) = 2 ^ j + 2 ^ j := by rw [Nat.pow_succ]; omega
    have hpow : 0 < 2 ^ j := by positivity
    have hn2 := hn
    rw [hsplit] at hn2
    obtain ⟨x1, hx1a, hx1b, hx1c⟩ := ih i (by omega)
    obtain ⟨x2, hx2a, hx2b, hx2c⟩ := ih (i + 2 ^ j) (by omega)
    rw [stVal, if_pos hn]
    rcases le_total (stVal arr n i j) (stVal arr n (i + 2 ^ j) j) with h | h
    · exact ⟨x1, hx1a, by omega, by rw [min_eq_left h, hx1c]⟩
    · exact ⟨x2, by omega, by omega, by rw [min_eq_right h, hx2c]⟩

/-- The log table of `buildST` has `n + 1` entries whose value at `i` is the
floor base-2 logarithm. -/
theorem buildST_lg (arr : List Nat) (h : arr.length ≠ 0) :
    (buildST arr).lg = (List.range (arr.length + 1)).map lg2 := by
  rw [buildST, if_neg h]

/-- The table of `buildST` has one row per array entry, each row listing
`stVal` at the `maxLog` window exponents. -/
theorem buildST_st (arr : List Nat) (h : arr.length ≠ 0) :
    (buildST arr).st = (List.range arr.length).map
      (fun i => (List.range (lg2 arr.length + 1)).map
        (fun j => stVal arr arr.length i j)) := by
  rw [buildST, if_neg h]

/-- Reading a well-formed map-of-range list with `getD`. -/
theorem getD_map_range {α : Type} (f : Nat → α) (d : α) (m i : Nat) (h : i < m) :
    ((List.range m).map f).getD i d = f i := by
  simp [List.getD_eq_getElem?_getD, List.getElem?_map, List.getElem?_range, h]

/-- `SparseTable::query` on the table built from a nonempty `arr` answers an
in-range, in-order query with the two-window minimum
`min (stVal L k) (stVal (R - 2^k + 1) k)` for `k = log2 (R - L + 1)`. -/
theorem stQueryE_buildST (arr : List Nat) (L R : Nat)
    (hLR : L ≤ R) (hR : R < arr.length) :
    stQueryE (buildST arr) L R =
      .ok (min (stVal arr arr.length L (Nat.log2 (R - L + 1)))
        (stVal arr arr.length (R + 1 - 2 ^ Nat.log2 (R - L + 1))
          (Nat.log2 (R - L + 1)))) := by
  obtain ⟨n, hn⟩ : ∃ n, arr.length = n := ⟨_, rfl⟩
  obtain ⟨k, hkdef⟩ : ∃ k, Nat.log2 (R - L + 1) = k := ⟨_, rfl⟩
  rw [hn] at hR ⊢
  rw [hkdef]
  have hn0 : arr.length ≠ 0 := by omega
  have hk2 : 2 ^ k ≤ R - L + 1 := by
    rw [← hkdef]
    exact Nat.log2_self_le (by omega)
  have hkpos : 0 < 2 ^ k := by positivity
  have hkmax : k ≤ Nat.log2 n := by
    rw [← hkdef, ← hn, Nat.le_log2 hn0, hn, hkdef]
    omega
  have hklt : k < lg2 n + 1 := by rw [lg2_eq_log2]; omega
  have hlg : (buildST arr).lg = (List.range (n + 1)).map lg2 := by
    rw [buildST_lg arr hn0, hn]
  have hst : (buildST arr).st = (List.range n).map
      (fun i => (List.range (lg2 n + 1)).map (fun j => stVal arr n i j)) := by
    rw [buildST_st arr hn0, hn]
  have hlgLen : (buildST arr).lg.length = n + 1 := by rw [hlg]; simp
  have hstLen : (buildST arr).st.length = n := by rw [hst]; simp
  have hlgGet : (buildST arr).lg.getD (R - L + 1) 0 = k := by
    rw [hlg, getD_map_range lg2 0 (n + 1) (R - L + 1) (by omega), lg2_eq_log2, hkdef]
  have hrowL : (buildST arr).st.getD L [] =
      (List.range (lg2 n + 1)).map (fun j => stVal arr n L j) := by
    rw [hst]
    exact getD_map_range _ [] n L (by omega)
  have hrow2 : (buildST arr).st.getD (R + 1 - 2 ^ k) [] =
      (List.range (lg2 n + 1)).map (fun j => stVal arr n (R + 1 - 2 ^ k) j) := by
    rw [hst]
    exact getD_map_range _ [] n (R + 1 - 2 ^ k) (by omega)
  rw [stQueryE]
  rw [if_neg (show ¬ L > R by omega)]
  rw [if_pos (show R - L + 1 < (buildST arr).lg.length by omega)]
  rw [hlgGet]
  rw [if_pos (show L < (buildST arr).st.length by omega)]
  rw [hrowL]
  have hlen1 : ((List.range (lg2 n + 1)).map
      (fun j => stVal arr n L j)).length = lg2 n + 1 := by simp
  have hlen2 : ((List.range (lg2 n + 1)).map
      (fun j => stVal arr n (R + 1 - 2 ^ k) j)).length = lg2 n + 1 := by simp
  rw [if_pos (show k < ((List.range (lg2 n + 1)).map
    (fun j => stVal arr n L j)).length by rw [hlen1]; omega)]
  rw [if_pos (show R + 1 - 2 ^ k < (buildST arr).st.length by omega)]
  rw [hrow2]
  rw [if_pos (show k < ((List.range (lg2 n + 1)).map
    (fun j => stVal arr n (R + 1 - 2 ^ k) j)).length by rw [hlen2]; omega)]
  rw [getD_map_range _ 0 (lg2 n + 1) k hklt,
      getD_map_range _ 0 (lg2 n + 1) k hklt]


/-- `SparseTable::query` on the table built from `arr` answers an in-range,
in-order query with the minimum of `arr` over `[L, R]`. -/
theorem stQueryE_ok (arr : List Nat) (L R : Nat)
    (hLR : L ≤ R) (hR : R < arr.length) :
    ∃ m, stQueryE (buildST arr) L R = .ok m ∧
      (∃ x, L ≤ x ∧ x ≤ R ∧ m = arr.getD x 0) ∧
      (∀ x, L ≤ x → x ≤ R → m ≤ arr.getD x 0) := by
  set n := arr.length with hn
  set len := R - L + 1 with hlen
  set k := Nat.log2 len with hk
  have hk2 : 2 ^ k ≤ len := Nat.log2_self_le (by omega)
  have hk2gt : len < 2 ^ (k + 1) := Nat.lt_log2_self
  have hksplit : 2 ^ (k + 1) = 2 ^ k + 2 ^ k := by rw [Nat.pow_succ]; omega
  have hkpos : 0 < 2 ^ k := by positivity
  have hLwin : L + 2 ^ k ≤ n := by omega
  have hi2win : R + 1 - 2 ^ k + 2 ^ k ≤ n := by omega
  refine ⟨min (stVal arr n L k) (stVal arr n (R + 1 - 2 ^ k) k), ?_, ?_, ?_⟩
  · rw [stQueryE_buildST arr L R hLR hR, ← hlen, ← hk]
  · rcases le_total (stVal arr n L k) (stVal arr n (R + 1 - 2 ^ k) k) with h | h
    · obtain ⟨x, hxa, hxb, hxc⟩ := stVal_mem arr n k L hLwin
      exact ⟨x, hxa, by omega, by rw [min_eq_left h, hxc]⟩
    · obtain ⟨x, hxa, hxb, hxc⟩ := stVal_mem arr n k (R + 1 - 2 ^ k) hi2win
      exact ⟨x, by omega, by omega, by rw [min_eq_right h, hxc]⟩
  · intro x hx1 hx2
    rcases Nat.lt_or_ge x (L + 2 ^ k) with hx | hx
    · exact le_trans (min_le_left _ _) (stVal_le arr n k L x hLwin hx1 hx)
    · exact le_trans (min_le_right _ _)
        (stVal_le arr n k (R + 1 - 2 ^ k) x hi2win (by omega) (by omega))


/-- C7, amended: `lcpRange` swaps an inverted range and returns, without
error, the minimum of `lcp` over the swapped range, which is the same result
as for the in-order call (`SparseTable::query` itself throws instead; see the
counterexample). -/
theorem C7_lcpRange_swaps (n : Nat) (sa lcp : List Nat) (l r : Nat)
    (hrl : r < l) (hl : l < lcp.length) :
    lcpRangeE n sa lcp l r = lcpRangeE n sa lcp r l ∧
    ∃ m, lcpRangeE n sa lcp l r = .ok m ∧
      (∃ x, r ≤ x ∧ x ≤ l ∧ m = lcp.getD x 0) ∧
      (∀ x, r ≤ x → x ≤ l → m ≤ lcp.getD x 0) := by
  have hngt : ¬ r > l := by omega
  have hne : r ≠ l := by omega
  have hred : lcpRangeE n sa lcp l r = stQueryE (buildST lcp) r l := by
    simp only [lcpRangeE, if_pos hrl]
    rw [if_neg hne]
  have hred2 : lcpRangeE n sa lcp r l = stQueryE (buildST lcp) r l := by
    simp only [lcpRangeE, if_neg hngt]
    rw [if_neg hne]
  refine ⟨by rw [hred, hred2], ?_⟩
  obtain ⟨m, hok, hmem, hle⟩ := stQueryE_ok lcp r l (le_of_lt hrl) hl
  exact ⟨m, by rw [hred]; exact hok, hmem, hle⟩

/-- C7 amended-claim witness: a concrete inverted-range query. -/
theorem C7_lcpRange_swaps_witness :
    lcpRangeE 3 [0, 1, 2] [5, 3, 4] 2 0 = lcpRangeE 3 [0, 1, 2] [5, 3, 4] 0 2 ∧
    ∃ m, lcpRangeE 3 [0, 1, 2] [5, 3, 4] 2 0 = .ok m ∧
      (∃ x, 0 ≤ x ∧ x ≤ 2 ∧ m = [5, 3, 4].getD x 0) ∧
      (∀ x, 0 ≤ x → x ≤ 2 → m ≤ [5, 3, 4].getD x 0) :=
  C7_lcpRange_swaps 3 [0, 1, 2] [5, 3, 4] 2 0 (by omega) (by simp)

/-! ### A small toolkit for the lexicographic order on byte sequences. -/

/-- Length of a truncated suffix. -/
theorem trunc_length (t : List Nat) (m i : Nat) :
    (trunc t m i).length = min m (t.length - i) := by
  simp [trunc]

/-- Reading inside a truncation. -/
theorem trunc_getD (t : List Nat) (m i p : Nat) (hp : p < m)
    (_hin : i + p < t.length) :
    (trunc t m i).getD p 0 = t.getD (i + p) 0 := by
  unfold trunc
  rw [List.getD_eq_getElem?_getD, List.getD_eq_getElem?_getD,
    List.getElem?_take, if_pos hp, List.getElem?_drop]

/-- The first components of `groupsAux` are the scanned list. -/
theorem groupsAux_fst (cmp : Nat → Nat → Bool) :
    ∀ (xs : List Nat) (prev g : Nat),
      (groupsAux cmp prev g xs).map Prod.fst = xs := by
  intro xs
  induction xs with
  | nil => intro prev g; rfl
  | cons x rest ih =>
    intro prev g
    simp only [groupsAux, List.map_cons]
    rw [ih]

end Algo
